import Mathlib

/-!
# Verification of the docker-map configuration and state-reconciliation core

Shallow embedding of the Python sources under `src/dockermap/` (configuration
model, extension resolver, instance-set algebra, dependency-item generation,
integrity checking, client resolution and container state classification),
with theorems settling the frozen claims about the natural-language
specification.

Python machine-level conventions used throughout the embedding:
* fallible code returns `Except PyErr`; an uncaught Python exception is an
  `Except.error` value;
* Python's bounded call stack is made explicit as a fuel parameter on the
  recursive extension resolver: a call entered with fuel 0 raises
  `PyErr.recursionError` (CPython's `RecursionError`);
* Python `dict`s are association lists with first-match lookup and
  insertion-order preserving assignment;
* Python `set`s are `Finset String` (only membership and difference are
  observed by the code under verification) or first-seen-order deduplicated
  lists where iteration order matters.
-/

set_option linter.unusedVariables false
set_option synthInstance.maxSize 1024
set_option maxHeartbeats 1000000

namespace DockerMap

/-! ## `dockermap.map.policy.utils.update_kwargs` -/

/-- A Python value as discriminated by `update_kwargs`: the function only
inspects whether an item is falsy, a list/tuple, or a dict; values nested one
level down are opaque (type parameter `α`). -/
inductive PyVal (α : Type) where
  | pyNone
  | pyBool (b : Bool)
  | pyInt (n : Int)
  | pyStr (s : String)
  | pyList (xs : List α)
  | pyDict (xs : List (String × α))
deriving DecidableEq

/-- Python truthiness of a `PyVal`. -/
def PyVal.truthy {α : Type} : PyVal α → Bool
  | .pyNone => false
  | .pyBool b => b
  | .pyInt n => n != 0
  | .pyStr s => s != ""
  | .pyList xs => !xs.isEmpty
  | .pyDict xs => !xs.isEmpty

/-- Keyword-argument dictionary: association list with insertion order. -/
def Kwargs (α : Type) : Type := List (String × PyVal α)

instance {α : Type} [DecidableEq α] : DecidableEq (Kwargs α) := by
  unfold Kwargs; infer_instance

/-- Python `dict` assignment: replaces the value in place if the key exists,
appends otherwise. -/
def dictSet {β : Type} : List (String × β) → String → β → List (String × β)
  | [], k, v => [(k, v)]
  | (k', v') :: rest, k, v =>
    if k' == k then (k, v) :: rest else (k', v') :: dictSet rest k v

/-- Python `dict.update`: one-level merge, later keys overriding. -/
def pyDictUpdate {β : Type} (base upd : List (String × β)) : List (String × β) :=
  upd.foldl (fun d kv => dictSet d kv.1 kv.2) base

/-- Errors `update_kwargs` can raise: calling `.extend`/`.update` on a stored
value of the wrong shape is an `AttributeError`. -/
inductive KwErr where
  | attributeError
deriving DecidableEq

/-- Body of the inner loop of `update_kwargs` (policy/utils.py lines 51-66) for
a single `(key, u_item)` pair of an update dictionary (`kw_item` is the
current entry for the key, re-read where the source binds it once). -/
def updateKwargsPair {α : Type} (kwargs : Kwargs α) (key : String) (uItem : PyVal α) :
    Except KwErr (Kwargs α) :=
  if uItem.truthy = false then .ok kwargs
  else
    match uItem with
    | .pyList us =>
      match List.lookup key kwargs with
      | some kw =>
        if kw.truthy then
          match kw with
          | .pyList ks => .ok (dictSet kwargs key (.pyList (ks ++ us)))
          | _ => .error .attributeError
        else .ok (dictSet kwargs key (.pyList us))
      | none => .ok (dictSet kwargs key (.pyList us))
    | .pyDict us =>
      match List.lookup key kwargs with
      | some kw =>
        if kw.truthy then
          match kw with
          | .pyDict ks => .ok (dictSet kwargs key (.pyDict (pyDictUpdate ks us)))
          | _ => .error .attributeError
        else .ok (dictSet kwargs key (.pyDict us))
      | none => .ok (dictSet kwargs key (.pyDict us))
    | v => .ok (dictSet kwargs key v)

/-- Inner loop of `update_kwargs` over the pairs of one update dictionary. -/
def updateKwargsPairs {α : Type} : Kwargs α → List (String × PyVal α) →
    Except KwErr (Kwargs α)
  | kwargs, [] => .ok kwargs
  | kwargs, (k, u) :: rest =>
    match updateKwargsPair kwargs k u with
    | .error e => .error e
    | .ok kwargs' => updateKwargsPairs kwargs' rest

/-- `update_kwargs(kwargs, *updates)` (policy/utils.py lines 30-66): skips
falsy update dictionaries, then merges each pair in order.  The Python
function mutates `kwargs` in place; the embedding returns the final value. -/
def updateKwargs {α : Type} : Kwargs α → List (List (String × PyVal α)) →
    Except KwErr (Kwargs α)
  | kwargs, [] => .ok kwargs
  | kwargs, upd :: rest =>
    if upd.isEmpty then updateKwargs kwargs rest
    else
      match updateKwargsPairs kwargs upd with
      | .error e => .error e
      | .ok kwargs' => updateKwargs kwargs' rest

/-! ## Configuration model

`ContainerConfiguration` lives in `src/dockermap/map/config/container.py`,
which is not part of the provided sources; its record of attributes is
modelled from the spec (§3 "Unit"). The code under verification
(`config/main.py`) accesses exactly the fields below. -/

/-- A `uses` entry: volume-sharing reference (spec §3: `{target, read-only}`). -/
structure UsesEntry where
  volume : String
  readOnly : Bool := false
deriving DecidableEq

/-- The volume of a `binds` entry: either a host-volume alias string or a
tuple form (path with explicit binding); `check_integrity` only inspects the
non-tuple aliases. -/
inductive BindVolume where
  | aliasName (s : String)
  | tupleVol (path hostPath : String)
deriving DecidableEq

/-- A `binds` entry. -/
structure BindEntry where
  volume : BindVolume
  readOnly : Bool := false
deriving DecidableEq

/-- A `links` entry: target container (possibly `unit.instance`) and alias. -/
structure LinkEntry where
  container : String
  linkAlias : Option String := none
deriving DecidableEq

/-- The `network` field of a unit when set: a named mode string, or a
reference to another unit's network namespace (the Python tuple case). -/
inductive NetworkRef where
  | mode (name : String)
  | ref (container : String) (instanceName : Option String)
deriving DecidableEq

/-- Modelled from the spec: `ContainerConfiguration` (§3 "Unit";
`config/container.py` is not among the sources).  Scalar attributes are
`Option` (unset/set) or plain `Bool` flags; list attributes default empty. -/
structure ContainerConfiguration where
  image : Option String := none
  instances : List String := []
  shares : List String := []
  binds : List BindEntry := []
  uses : List UsesEntry := []
  attaches : List String := []
  links : List LinkEntry := []
  network : Option NetworkRef := none
  extends_ : List String := []
  persistent : Bool := false
  abstract : Bool := false
  clients : List String := []
deriving DecidableEq

/-- Modelled from the spec: `ConfigurationObject.merge_from_obj`
(`config/__init__.py` is not among the sources).  Per §3 (Lifecycle) and §4.1:
the merged-in object's set scalar attributes override, list attributes are
extended, and the merged-in object has the higher priority.  Boolean flags are
plain scalars replaced by the merged-in object's value; in particular the
`abstract` flag of the result is the merged-in unit's own (§2: abstract units
are excluded from iteration and usable only as extension parents, and §4.1/§8
assert that extension of a non-abstract unit yields a usable unit). -/
def mergeFromObj (self obj : ContainerConfiguration) : ContainerConfiguration where
  image := match obj.image with | some v => some v | none => self.image
  instances := self.instances ++ obj.instances
  shares := self.shares ++ obj.shares
  binds := self.binds ++ obj.binds
  uses := self.uses ++ obj.uses
  attaches := self.attaches ++ obj.attaches
  links := self.links ++ obj.links
  network := match obj.network with | some v => some v | none => self.network
  extends_ := self.extends_ ++ obj.extends_
  persistent := obj.persistent
  abstract := obj.abstract
  clients := self.clients ++ obj.clients

/-- Modelled from the spec: `NetworkConfiguration` (§3 "Network";
`config/network.py` is not among the sources): named option bag with no graph
edges of its own. -/
structure NetworkConfiguration where
  driver : Option String := none
deriving DecidableEq

/-- `ContainerMap` (config/main.py lines 143-191): named collection of
container configurations, networks, groups, host/named volume aliases and
map-level defaults.  `extended` is the `_extended` flag. -/
structure ContainerMap where
  name : String
  repository : Option String := none
  host : List (String × String) := []
  volumes : List (String × String) := []
  clients : List String := []
  groups : List (String × List String) := []
  defaultDomain : Option String := none
  setHostname : Bool := true
  useAttachedParentName : Bool := false
  defaultTag : String := "latest"
  containers : List (String × ContainerConfiguration) := []
  networks : List (String × NetworkConfiguration) := []
  extended : Bool := false
deriving DecidableEq

/-- `ContainerMap.__iter__` (config/main.py line 192-193): the non-abstract
container configurations, in insertion order. -/
def ContainerMap.items (m : ContainerMap) : List (String × ContainerConfiguration) :=
  m.containers.filter (fun p => !p.2.abstract)

/-- `ContainerMap.get_existing` (config/main.py lines 405-415): `dict.get`,
no auto-creation. -/
def ContainerMap.getExisting (m : ContainerMap) (item : String) :
    Option ContainerConfiguration :=
  List.lookup item m.containers

/-! ## Extension resolver (`get_extended`, `get_extended_map`) -/

/-- The seven rules of `check_integrity`, in source order; each
`MapIntegrityError` message is identified by its rule and the set of
offending identifiers it names. -/
inductive IntegrityKind where
  | ambiguousNames
  | missingGroupRefs
  | duplicateAttached
  | missingShares
  | missingBinds
  | missingVolumeNames
  | missingLinks
  | missingNetworks
deriving DecidableEq

/-- Python exceptions raised by the configuration layer. -/
inductive PyErr where
  | recursionError
  | keyError (key : String)
  | keyErrorPair (mapName configName : String)
  | dependencyNotFound (depMap depConfig selfMap selfConfig : String)
  | attributeError
  | typeError
  | valueError
  | mapIntegrityError (kind : IntegrityKind) (names : Finset String)
deriving DecidableEq

/-- The `for ext_name in config.extends` loop of `get_extended`,
parameterised by the one-level-deeper resolver `prev`: looks each parent up
(a `KeyError` if absent), resolves it with `prev` and merges it into the
accumulator, left to right. -/
def extendParentsWith (m : ContainerMap)
    (prev : ContainerConfiguration → Except PyErr ContainerConfiguration) :
    List String → ContainerConfiguration → Except PyErr ContainerConfiguration
  | [], acc => .ok acc
  | extName :: rest, acc =>
    match List.lookup extName m.containers with
    | none => .error (.keyError extName)
    | some extCfgBase =>
      match prev extCfgBase with
      | .error e => .error e
      | .ok extCfg => extendParentsWith m prev rest (mergeFromObj acc extCfg)

/-- `ContainerMap.get_extended` (config/main.py lines 441-460) with CPython's
bounded call stack made explicit: `fuel` is the remaining recursion depth,
each recursive parent resolution runs one stack level deeper, and entering a
call with no fuel left raises `RecursionError`.  There is no explicit cycle
guard in the source; on an `extends` cycle the recursion only stops at the
interpreter's recursion limit. -/
def getExtended (m : ContainerMap) (fuel : Nat) :
    ContainerConfiguration → Except PyErr ContainerConfiguration :=
  Nat.rec
    (motive := fun _ => ContainerConfiguration → Except PyErr ContainerConfiguration)
    (fun _ => .error .recursionError)
    (fun _ prev config =>
      if config.extends_.isEmpty || m.extended then .ok config
      else
        match extendParentsWith m prev config.extends_ {} with
        | .error e => .error e
        | .ok acc => .ok (mergeFromObj acc config))
    fuel

/-- The `for c_name, c_config in self` loop of `get_extended_map`: extends
every non-abstract configuration of the iterated list. -/
def extendAll (m : ContainerMap) (fuel : Nat) :
    List (String × ContainerConfiguration) →
    Except PyErr (List (String × ContainerConfiguration))
  | [] => .ok []
  | (cName, cConfig) :: rest =>
    match getExtended m fuel cConfig with
    | .error e => .error e
    | .ok ext =>
      match extendAll m fuel rest with
      | .error e => .error e
      | .ok exts => .ok ((cName, ext) :: exts)

/-- `ContainerMap.get_extended_map` (config/main.py lines 462-474): a copy of
the map (same name and map-level attributes, networks copied) whose container
table holds the extended form of every non-abstract configuration, flagged
extended. -/
def getExtendedMap (m : ContainerMap) (fuel : Nat) : Except PyErr ContainerMap :=
  match extendAll m fuel m.items with
  | .error e => .error e
  | .ok cs => .ok { m with containers := cs, extended := true }

/-! ## Instance set algebra (`group_instances`, `expand_instances`)

Addresses: `(map name, config name, single instance)` triples and
`MapConfigId` tuples `(map name, config name, instance tuple)` where `none` in
an instance position is the wildcard. -/

/-- A `(map, config, instance)` triple as consumed with `single_instances`. -/
abbrev SingleId := String × String × Option String

/-- A `MapConfigId`: `(map, config, instance tuple)`. -/
abbrev MapCfgId := String × String × List (Option String)

/-- `get_map_config = itemgetter(0, 1)` (config/main.py line 18). -/
def getMapConfig {γ : Type} (t : String × String × γ) : String × String :=
  (t.1, t.2.1)

/-- Strict lexicographic comparison on `(map, config)` keys, the sort key of
Python's `sorted(config_ids, key=get_map_config)`. -/
def keyLt (x y : String × String) : Bool :=
  decide (x.1 < y.1) || (x.1 == y.1 && decide (x.2 < y.2))

/-- One step of a stable insertion sort: the new element goes after all
already-placed elements whose key is not greater, so elements with equal keys
keep their first-seen order — the same function on lists as Python's stable
`sorted` with key `get_map_config`. -/
def insertSortedBy {γ : Type} (x : String × String × γ) :
    List (String × String × γ) → List (String × String × γ)
  | [] => [x]
  | y :: ys =>
    if keyLt (getMapConfig x) (getMapConfig y) then x :: y :: ys
    else y :: insertSortedBy x ys

/-- `sorted(config_ids, key=get_map_config)` as a stable insertion sort. -/
def pySortedBy {γ : Type} (l : List (String × String × γ)) :
    List (String × String × γ) :=
  l.foldl (fun acc x => insertSortedBy x acc) []

/-- `itertools.groupby(..., get_map_config)`: consecutive runs of equal
`(map, config)` key. -/
def chunkBy {γ : Type} : List (String × String × γ) →
    List ((String × String) × List (String × String × γ))
  | [] => []
  | x :: xs =>
    match chunkBy xs with
    | [] => [(getMapConfig x, [x])]
    | (k, g) :: rest =>
      if getMapConfig x == k then (k, x :: g) :: rest
      else (getMapConfig x, [x]) :: (k, g) :: rest

/-- First-seen-order deduplication with an explicit seen accumulator. -/
def dedupFirstAux {β : Type} [DecidableEq β] (seen : List β) : List β → List β
  | [] => []
  | x :: xs =>
    if x ∈ seen then dedupFirstAux seen xs
    else x :: dedupFirstAux (x :: seen) xs

/-- First-seen-order deduplication (the observable content of building a
Python `set` and iterating it, with an order fixed to first insertion; the
verified claims depend only on membership). -/
def dedupFirst {β : Type} [DecidableEq β] (l : List β) : List β :=
  dedupFirstAux [] l

/-- Per-chunk body of `group_instances` (config/main.py lines 83-93,
`single_instances=True`, single `ext_map` mode): collect the instance
components, look the configuration up, and collapse to the wildcard tuple
`(None,)` when the configuration declares instances and the collected
instances contain the wildcard or match the declared count. -/
def groupChunks (extMap : ContainerMap) :
    List ((String × String) × List SingleId) → Except PyErr (List MapCfgId)
  | [] => .ok []
  | ((mapName, configName), items) :: rest =>
    let instances : List (Option String) := items.map (fun t => t.2.2)
    match extMap.getExisting configName with
    | none => .error (.keyErrorPair mapName configName)
    | some config =>
      let item : MapCfgId :=
        if !config.instances.isEmpty ∧
            (none ∈ instances ∨ instances.length = config.instances.length)
        then (mapName, configName, ([none] : List (Option String)))
        else (mapName, configName, instances)
      match groupChunks extMap rest with
      | .error e => .error e
      | .ok out => .ok (item :: out)

/-- `group_instances` (config/main.py lines 61-93) with `single_instances=True`
and a single extended map. -/
def groupInstances (extMap : ContainerMap) (configIds : List SingleId) :
    Except PyErr (List MapCfgId) :=
  groupChunks extMap (chunkBy (pySortedBy configIds))

/-- `_get_nested_instances` (config/main.py lines 25-31): flattens one level,
replacing an empty instance tuple by `(None,)`.  The generator's dedup
condition `ni not in instance_set or instance_add(ni)` never executes
`instance_add` (the `or` short-circuits whenever `ni` is new, and the seen-set
therefore never grows), so no element is ever filtered out: the function is
plain flattening. -/
def nestedInstances (groupItems : List MapCfgId) : List (Option String) :=
  groupItems.flatMap (fun di => if di.2.2.isEmpty then [none] else di.2.2)

/-- Per-chunk body of `expand_instances` (config/main.py lines 117-129,
`single_instances=False`, single `ext_map` mode): the wildcard expands to the
full declared instance list, explicit instances pass through one address
each. -/
def expandChunks (extMap : ContainerMap) :
    List ((String × String) × List MapCfgId) → Except PyErr (List SingleId)
  | [] => .ok []
  | ((mapName, configName), items) :: rest =>
    let instances : List (Option String) := nestedInstances items
    match extMap.getExisting configName with
    | none => .error (.keyErrorPair mapName configName)
    | some config =>
      let out : List SingleId :=
        if !config.instances.isEmpty ∧ none ∈ instances
        then config.instances.map (fun i => (mapName, configName, some i))
        else instances.map (fun i => (mapName, configName, i))
      match expandChunks extMap rest with
      | .error e => .error e
      | .ok outRest => .ok (out ++ outRest)

/-- `expand_instances` (config/main.py lines 96-129) with
`single_instances=False` and a single extended map. -/
def expandInstances (extMap : ContainerMap) (configIds : List MapCfgId) :
    Except PyErr (List SingleId) :=
  expandChunks extMap (chunkBy (pySortedBy configIds))

/-! ## Dependency items (`ContainerMap.dependency_items`) -/

/-- Splits a character list at the first `'.'`: `none` when absent, else the
characters before and after it. -/
def splitDotChars : List Char → Option (List Char × List Char)
  | [] => none
  | c :: cs =>
    if c = '.' then some ([], cs)
    else
      match splitDotChars cs with
      | none => none
      | some (pre, post) => some (c :: pre, post)

/-- Python `str.partition('.')` restricted to the two components the source
uses: the part before the first `'.'` and the remainder (empty if absent);
implemented character-wise so that it evaluates by kernel reduction. -/
def partitionDot (s : String) : String × String :=
  match splitDotChars s.data with
  | none => (s, "")
  | some (pre, post) => (String.mk pre, String.mk post)

/-- `i or None` on the remainder of a partition. -/
def strOrNone (i : String) : Option String :=
  if i == "" then none else some i

/-- The `attached` dict of `dependency_items` (config/main.py lines 362-364):
attachment alias to owning configuration name, later owners overriding. -/
def attachedOwners (extMap : ContainerMap) : List (String × String) :=
  (extMap.items.flatMap (fun p => p.2.attaches.map (fun a => (a, p.1)))).foldl
    (fun d kv => dictSet d kv.1 kv.2) []

/-- `_get_used_item_np` (config/main.py lines 334-340): a `uses` target is
resolved to the owner of the attachment alias it names, else literally. -/
def usedItemNp (m extMap : ContainerMap) (u : UsesEntry) : SingleId :=
  let (c, i) := partitionDot u.volume
  match List.lookup c (attachedOwners extMap) with
  | some a => if a != "" then (m.name, a, none) else (m.name, c, strOrNone i)
  | none => (m.name, c, strOrNone i)

/-- `_get_used_item_ap` (config/main.py lines 342-348): with attached parent
naming, the named unit is looked up and the instance suffix is dropped when it
names one of that unit's attachments (`a.attaches` on a missing unit is an
`AttributeError`). -/
def usedItemAp (m extMap : ContainerMap) (u : UsesEntry) : Except PyErr SingleId :=
  let (c, i) := partitionDot u.volume
  match extMap.getExisting c with
  | none => .error .attributeError
  | some a =>
    if i ∈ a.attaches then .ok (m.name, c, none) else .ok (m.name, c, strOrNone i)

/-- `_get_linked_item` (config/main.py lines 350-354). -/
def linkedItem (m : ContainerMap) (l : LinkEntry) : SingleId :=
  let (c, i) := partitionDot l.container
  if i != "" then (m.name, c, some i) else (m.name, c, none)

/-- `_get_dep_set` (config/main.py lines 369-376): union of the resolved
`uses` items, `links` items and (when the `network` field is a tuple) the
referenced network namespace owner.  Python builds a `set`; the embedding
fixes first-insertion iteration order. -/
def depSet (m extMap : ContainerMap) (config : ContainerConfiguration) :
    Except PyErr (List SingleId) :=
  match (if m.useAttachedParentName then config.uses.mapM (usedItemAp m extMap)
         else .ok (config.uses.map (usedItemNp m extMap))) with
  | .error e => .error e
  | .ok usedItems =>
    let linkedItems := config.links.map (linkedItem m)
    let dSet := dedupFirst (usedItems ++ linkedItems)
    match config.network with
    | some (.ref c i) => .ok (dedupFirst (dSet ++ [(m.name, c, i)]))
    | _ => .ok dSet

/-- The `except KeyError` handler of the forward branch of
`dependency_items` (config/main.py lines 389-390): a `KeyError` carrying a
`(map, config)` pair — the only error `group_instances` raises — is re-raised
naming the referencing unit; anything else propagates. -/
def wrapGroupErr (e : PyErr) (selfMap selfConfig : String) : PyErr :=
  match e with
  | .keyErrorPair dm dc => .dependencyNotFound dm dc selfMap selfConfig
  | e => e

/-- The `else` branch of `dependency_items` (config/main.py lines 384-391,
`reverse=False`): per non-abstract configuration, the grouped dependency set,
with a `KeyError` from grouping rewrapped to name the referencing unit. -/
def dependencyItemsFwdList (m extMap : ContainerMap) :
    List (String × ContainerConfiguration) →
    Except PyErr (List ((String × String) × List MapCfgId))
  | [] => .ok []
  | (cName, cConfig) :: rest =>
    match depSet m extMap cConfig with
    | .error e => .error e
    | .ok dSet =>
      match groupInstances extMap dSet with
      | .error e => .error (wrapGroupErr e m.name cName)
      | .ok grouped =>
        match dependencyItemsFwdList m extMap rest with
        | .error e => .error e
        | .ok out => .ok (((m.name, cName), dedupFirst grouped) :: out)

/-- The `if reverse` branch of `dependency_items` (config/main.py lines
378-382): per non-abstract configuration `c`, the address `(map, c, (None,))`
paired with the unit-level `(map, config)` projections of `c`'s own
dependency set. -/
def dependencyItemsRevList (m extMap : ContainerMap) :
    List (String × ContainerConfiguration) →
    Except PyErr (List (MapCfgId × List (String × String)))
  | [] => .ok []
  | (cName, cConfig) :: rest =>
    match depSet m extMap cConfig with
    | .error e => .error e
    | .ok dSet =>
      match dependencyItemsRevList m extMap rest with
      | .error e => .error e
      | .ok out =>
        .ok (((m.name, cName, ([none] : List (Option String))),
              dedupFirst (dSet.map getMapConfig)) :: out)

/-- `dependency_items(reverse=False)` (config/main.py lines 326-391). -/
def dependencyItemsFwd (m : ContainerMap) (fuel : Nat) :
    Except PyErr (List ((String × String) × List MapCfgId)) :=
  match (if m.extended then .ok m else getExtendedMap m fuel) with
  | .error e => .error e
  | .ok extMap => dependencyItemsFwdList m extMap extMap.items

/-- `dependency_items(reverse=True)` (config/main.py lines 326-382). -/
def dependencyItemsRev (m : ContainerMap) (fuel : Nat) :
    Except PyErr (List (MapCfgId × List (String × String))) :=
  match (if m.extended then .ok m else getExtendedMap m fuel) with
  | .error e => .error e
  | .ok extMap => dependencyItemsRevList m extMap extMap.items

/-! ## Integrity checker (`ContainerMap.check_integrity`) -/

/-- The per-configuration tuple computed by `_get_container_items`
(config/main.py lines 494-514).  Attachments are kept as
`(owner, alias)` pairs; the flag-dependent name forms are derived below. -/
structure ContainerItems where
  instanceNames : List String
  groupRefNames : List String
  usesVolumes : List String
  attached : List (String × String)
  shared : List String
  bindVolumes : List String
  linkTargets : List String
  networkTarget : Option String
deriving DecidableEq

/-- `_get_instance_names` (config/main.py lines 489-492). -/
def getInstanceNames (cName : String) (instances : List String) : List String :=
  if !instances.isEmpty then instances.map (fun i => cName ++ "." ++ i)
  else [cName]

/-- `_get_container_items` (config/main.py lines 494-514). -/
def getContainerItems (cName : String) (cConfig : ContainerConfiguration) :
    ContainerItems :=
  let instanceNames := getInstanceNames cName cConfig.instances
  { instanceNames := instanceNames
    groupRefNames :=
      instanceNames ++ (if !cConfig.instances.isEmpty then [cName] else [])
    usesVolumes := cConfig.uses.map (fun u => u.volume)
    attached := cConfig.attaches.map (fun a => (cName, a))
    shared :=
      if !cConfig.shares.isEmpty || !cConfig.binds.isEmpty || !cConfig.uses.isEmpty
      then instanceNames else []
    bindVolumes := cConfig.binds.filterMap (fun b =>
      match b.volume with
      | .aliasName s => some s
      | .tupleVol _ _ => none)
    linkTargets := cConfig.links.map (fun l => l.container)
    networkTarget :=
      match cConfig.network with
      | some (.ref c i) =>
        some (match i with
              | some iv => if iv != "" then c ++ "." ++ iv else c
              | none => c)
      | _ => none }

/-- `all_attached_names` (config/main.py lines 519-523). -/
def allAttachedNames (useParent : Bool) (attached : List (String × String)) :
    List String :=
  if useParent then attached.map (fun p => p.1 ++ "." ++ p.2)
  else attached.map (fun p => p.2)

/-- `volume_shared` (config/main.py line 538): the shared instance names of
all configurations followed by the attached names, duplicates preserved (fed
into `Counter`). -/
def volumeShared (useParent : Bool) (its : List ContainerItems) : List String :=
  its.flatMap (fun it => it.shared) ++
    allAttachedNames useParent (its.flatMap (fun it => it.attached))

/-- The per-configuration item tuples of the extended map (the `zip(*[...])`
of config/main.py lines 516-518, kept per configuration). -/
def integrityItems (ext : ContainerMap) : List ContainerItems :=
  ext.items.map (fun p => getContainerItems p.1 p.2)

/-- `ref_set` (config/main.py line 525). -/
def integrityRefSet (ext : ContainerMap) : Finset String :=
  ((integrityItems ext).flatMap (fun it => it.groupRefNames)).toFinset

/-- `group_set` (config/main.py line 526). -/
def integrityGroupSet (m : ContainerMap) : Finset String :=
  (m.groups.map (fun g => g.1)).toFinset

/-- `group_referenced` (config/main.py line 532). -/
def integrityGroupReferenced (m : ContainerMap) : Finset String :=
  (m.groups.flatMap (fun g => g.2)).toFinset

/-- `volume_shared` of the map (config/main.py line 538). -/
def integrityVolumeShared (m ext : ContainerMap) : List String :=
  volumeShared m.useAttachedParentName (integrityItems ext)

/-- `duplicated` (config/main.py line 540): names with `Counter` count above
one. -/
def integrityDuplicated (m ext : ContainerMap) : Finset String :=
  ((integrityVolumeShared m ext).filter
    (fun n => 1 < (integrityVolumeShared m ext).count n)).toFinset

/-- `used_set` (config/main.py line 544). -/
def integrityUsedSet (ext : ContainerMap) : Finset String :=
  ((integrityItems ext).flatMap (fun it => it.usesVolumes)).toFinset

/-- `shared_set` (config/main.py line 545). -/
def integritySharedSet (m ext : ContainerMap) : Finset String :=
  (integrityVolumeShared m ext).toFinset

/-- `binds_set` (config/main.py line 550). -/
def integrityBindsSet (ext : ContainerMap) : Finset String :=
  ((integrityItems ext).flatMap (fun it => it.bindVolumes)).toFinset

/-- `host_set` (config/main.py line 551). -/
def integrityHostSet (m : ContainerMap) : Finset String :=
  (m.host.map (fun h => h.1)).toFinset

/-- The `(owner, alias)` pairs of all attachments. -/
def integrityAttachedPairs (ext : ContainerMap) : List (String × String) :=
  (integrityItems ext).flatMap (fun it => it.attached)

/-- `volume_set` (config/main.py lines 556-559). -/
def integrityVolumeSet (m ext : ContainerMap) : Finset String :=
  if m.useAttachedParentName then
    integrityBindsSet ext ∪
      ((integrityAttachedPairs ext).map (fun a => a.2)).toFinset
  else
    integrityBindsSet ext ∪
      (allAttachedNames m.useAttachedParentName
        (integrityAttachedPairs ext)).toFinset

/-- `named_set` (config/main.py line 560). -/
def integrityNamedSet (m : ContainerMap) : Finset String :=
  (m.volumes.map (fun v => v.1)).toFinset

/-- `instance_set` (config/main.py line 565). -/
def integrityInstanceSet (ext : ContainerMap) : Finset String :=
  ((integrityItems ext).flatMap (fun it => it.instanceNames)).toFinset

/-- `linked_set` (config/main.py line 566). -/
def integrityLinkedSet (ext : ContainerMap) : Finset String :=
  ((integrityItems ext).flatMap (fun it => it.linkTargets)).toFinset

/-- `network_set` (config/main.py line 571): `filter(None, ...)` drops unset
and empty references. -/
def integrityNetworkSet (ext : ContainerMap) : Finset String :=
  (((integrityItems ext).filterMap (fun it => it.networkTarget)).filter
    (fun n => n != "")).toFinset

/-- The rest of `check_integrity` (config/main.py lines 516-575) after the
extended map has been computed: the seven rules in source order, stopping at
the first rule with offenders.  `zip(*[...])` over an empty extended map
raises `ValueError` (nothing to unpack into the eight names). -/
def checkIntegrityItems (m : ContainerMap) (checkDuplicates : Bool)
    (ext : ContainerMap) : Except PyErr Unit :=
  if ext.items.isEmpty then .error .valueError
  else if integrityGroupSet m ∩ integrityRefSet ext ≠ ∅ then
    .error (.mapIntegrityError .ambiguousNames
      (integrityGroupSet m ∩ integrityRefSet ext))
  else if integrityGroupReferenced m \ integrityRefSet ext ≠ ∅ then
    .error (.mapIntegrityError .missingGroupRefs
      (integrityGroupReferenced m \ integrityRefSet ext))
  else if checkDuplicates ∧ integrityDuplicated m ext ≠ ∅ then
    .error (.mapIntegrityError .duplicateAttached (integrityDuplicated m ext))
  else if integrityUsedSet ext \ integritySharedSet m ext ≠ ∅ then
    .error (.mapIntegrityError .missingShares
      (integrityUsedSet ext \ integritySharedSet m ext))
  else if integrityBindsSet ext \ integrityHostSet m ≠ ∅ then
    .error (.mapIntegrityError .missingBinds
      (integrityBindsSet ext \ integrityHostSet m))
  else if integrityVolumeSet m ext \ integrityNamedSet m ≠ ∅ then
    .error (.mapIntegrityError .missingVolumeNames
      (integrityVolumeSet m ext \ integrityNamedSet m))
  else if integrityLinkedSet ext \ integrityInstanceSet ext ≠ ∅ then
    .error (.mapIntegrityError .missingLinks
      (integrityLinkedSet ext \ integrityInstanceSet ext))
  else if integrityNetworkSet ext \ integrityInstanceSet ext ≠ ∅ then
    .error (.mapIntegrityError .missingNetworks
      (integrityNetworkSet ext \ integrityInstanceSet ext))
  else .ok ()

/-- `ContainerMap.check_integrity` (config/main.py lines 476-575): computes
the extended map and runs the seven rules. -/
def checkIntegrity (m : ContainerMap) (checkDuplicates : Bool) (fuel : Nat) :
    Except PyErr Unit :=
  match getExtendedMap m fuel with
  | .error e => .error e
  | .ok ext => checkIntegrityItems m checkDuplicates ext

/-! ## State classification (`ContainerBaseState.get_state`)

The constants of `state/__init__.py` (base states, flag bits, the sentinel
start time) are not among the sources; they are modelled from the spec (§4.6).
The flag bitset becomes a record of booleans — the flag bits are distinct, so
bitwise-or is field-wise setting. -/

/-- Modelled from the spec: the mutually exclusive base states (§4.6). -/
inductive BaseState where
  | absent
  | present
  | running
deriving DecidableEq

/-- Modelled from the spec: the `STATE_FLAG_*` bitset of §4.6 as a record of
booleans (the context flags `DEPENDENT`/`ATTACHED`/`PERSISTENT` live on the
config flags, not here). -/
structure StateFlags where
  initial : Bool := false
  restarting : Bool := false
  nonrecoverable : Bool := false
  outdated : Bool := false
deriving DecidableEq

/-- Modelled from the spec: `INITIAL_START_TIME`, the well-known
"never started" sentinel timestamp reported by the runtime (§4.6); the
classification only compares for equality with it. -/
def INITIAL_START_TIME : String := "0001-01-01T00:00:00Z"

/-- Modelled from the spec: a container `RawDetail`'s `State` section as read
by `get_state` (§6: running flag, start timestamp, exit code, restarting
flag). -/
structure ContainerDetail where
  running : Bool
  startedAt : String
  exitCode : Int
  restarting : Bool
deriving DecidableEq

/-- Modelled from the spec: `ITEM_TYPE_*` of `map/input.py` (§4.6). -/
inductive ItemType where
  | container
  | volume
  | network
deriving DecidableEq

/-- The options of `AbstractStateGenerator` consumed by `get_state`
(state/base.py lines 206-208): the non-recoverable exit code set and the
caller-supplied force-update selection (a collection of
`(item type, map, config, instance)` addresses; `None`/empty is falsy). -/
structure StateOptions where
  nonrecoverableExitCodes : List Int := [-127, -1]
  forceUpdate : List (ItemType × String × String × Option String) := []
deriving DecidableEq

/-- `ContainerBaseState.get_state` (state/base.py lines 145-167).  `detail` is
`none` for `NOT_FOUND` — that case returns early, before the force-update
check.  The returned extra-detail dict is always empty and omitted. -/
def getState (options : StateOptions) (mapName configName : String)
    (instanceName : Option String) (detail : Option ContainerDetail) :
    BaseState × StateFlags :=
  match detail with
  | none => (.absent, {})
  | some d =>
    let baseFlag : BaseState × StateFlags :=
      if d.running then (.running, {})
      else
        let f :=
          if d.startedAt == INITIAL_START_TIME then
            ({ initial := true } : StateFlags)
          else if d.exitCode ∈ options.nonrecoverableExitCodes then
            { nonrecoverable := true }
          else {}
        (.present, if d.restarting then { f with restarting := true } else f)
    let flags :=
      if !options.forceUpdate.isEmpty ∧
          (ItemType.container, mapName, configName, instanceName) ∈
            options.forceUpdate
      then { baseFlag.2 with outdated := true }
      else baseFlag.2
    (baseFlag.1, flags)

/-! ## Client resolution (`BasePolicy.get_clients`) and the state generator
(`AbstractStateGenerator.generate_config_states`) -/

/-- Modelled from the spec: `ClientConfiguration` (`config/client.py` is not
among the sources); only its `get_client()` handle is observed here. -/
structure ClientConfiguration where
  clientHandle : String
deriving DecidableEq

/-- The parts of `BasePolicy` (policy/base.py lines 16-41) the state generator
reads: the client configuration registry and the extended container maps. -/
structure Policy where
  clients : List (String × ClientConfiguration)
  maps : List (String × ContainerMap)
deriving DecidableEq

/-- `BasePolicy.__init__` (policy/base.py lines 28-41) restricted to the data
above: every container map is replaced by its extended form (the caches and
dependency resolvers live in modules that are not part of the state
generation path verified here). -/
def mkPolicy (containerMaps : List (String × ContainerMap))
    (clients : List (String × ClientConfiguration)) (fuel : Nat) :
    Except PyErr Policy :=
  match containerMaps.mapM (fun p => (getExtendedMap p.2 fuel).map (p.1, ·)) with
  | .error e => .error e
  | .ok maps => .ok { clients := clients, maps := maps }

/-- `BasePolicy.get_default_client_name` (policy/base.py lines 43-50). -/
def getDefaultClientName : String := "__default__"

/-- `_get_client` inside `get_clients` (policy/base.py lines 166-168): looks
the name up in the client registry (a `KeyError` if absent) and returns the
`(client_name, client, client_config)` triple. -/
def getClient (p : Policy) (clientName : String) :
    Except PyErr (String × String × ClientConfiguration) :=
  match List.lookup clientName p.clients with
  | none => .error (.keyError clientName)
  | some cc => .ok (clientName, cc.clientHandle, cc)

/-- `BasePolicy.get_clients(self, c_config, c_map)` (policy/base.py lines
153-175).  The first parameter is the container configuration's client list,
the second the map's: configuration-level clients, else map-level clients,
else the default client name.  (Call sites pass the two objects; only their
`.clients` attributes are read.) -/
def getClients (p : Policy) (cConfigClients cMapClients : List String) :
    Except PyErr (List (String × String × ClientConfiguration)) :=
  if !cConfigClients.isEmpty then cConfigClients.mapM (getClient p)
  else if !cMapClients.isEmpty then cMapClients.mapM (getClient p)
  else (getClient p getDefaultClientName).map (fun c => [c])

/-- Modelled from the spec: the `CONFIG_FLAG_DEPENDENT` /
`CONTAINER_CONFIG_FLAG_ATTACHED` / `CONTAINER_CONFIG_FLAG_PERSISTENT` bit
flags of `map/policy/__init__.py` (§4.6 context flags) as a record. -/
structure ConfigFlags where
  dependent : Bool := false
  attached : Bool := false
  persistent : Bool := false
deriving DecidableEq

/-- Modelled from the spec: the `ConfigState` record emitted per client per
address (§6 boundary: client, map, object kind, name, instance, config flags,
base state, state flags). -/
structure ConfigState where
  clientName : String
  mapName : String
  configType : ItemType
  configName : String
  instanceName : Option String
  configFlags : ConfigFlags
  baseState : BaseState
  stateFlags : StateFlags
deriving DecidableEq

/-- `AbstractStateGenerator.generate_config_states` (state/base.py lines
221-276).  For containers and volumes the client list is obtained by
`self._policy.get_clients(c_map, config)` — the container map in the
configuration slot and the configuration in the map slot — and the loop
`for client_name, client_config in clients` then unpacks the 3-tuples
returned by `get_clients` into two targets, which raises `ValueError` as soon
as the (never empty) client list is iterated.  For networks,
`self._policy.get_clients(c_map)` omits a required positional argument, a
`TypeError`. -/
def generateConfigStates (p : Policy) (configType : ItemType)
    (mapName configName : String) (instanceName : Option String)
    (isDependency : Bool) : Except PyErr (List ConfigState) :=
  match List.lookup mapName p.maps with
  | none => .error (.keyError mapName)
  | some cMap =>
    let cFlags : ConfigFlags := { dependent := isDependency }
    match configType with
    | .container =>
      match cMap.getExisting configName with
      | none => .error (.keyErrorPair mapName configName)
      | some config =>
        match getClients p cMap.clients config.clients with
        | .error e => .error e
        | .ok clients =>
          let _cFlags := { cFlags with persistent := config.persistent }
          match clients with
          | [] => .ok []
          | _ :: _ => .error .valueError
    | .volume =>
      match cMap.getExisting configName with
      | none => .error (.keyErrorPair mapName configName)
      | some config =>
        match getClients p cMap.clients config.clients with
        | .error e => .error e
        | .ok clients =>
          let _cFlags := { cFlags with attached := true }
          match clients with
          | [] => .ok []
          | _ :: _ => .error .valueError
    | .network =>
      match List.lookup configName cMap.networks with
      | none => .error (.keyErrorPair mapName configName)
      | some _ => .error .typeError

instance {ε β : Type} [DecidableEq ε] [DecidableEq β] : DecidableEq (Except ε β) := fun
  | .error a, .error b =>
    if h : a = b then .isTrue (by rw [h])
    else .isFalse (by intro hh; cases hh; exact h rfl)
  | .error _, .ok _ => .isFalse (fun hh => Except.noConfusion hh)
  | .ok _, .error _ => .isFalse (fun hh => Except.noConfusion hh)
  | .ok a, .ok b =>
    if h : a = b then .isTrue (by rw [h])
    else .isFalse (by intro hh; cases hh; exact h rfl)

/-- One `extends` edge: unit `a` is declared and lists `b` among its
parents. -/
def extendsStep (m : ContainerMap) (a b : String) : Prop :=
  ∃ c, List.lookup a m.containers = some c ∧ b ∈ c.extends_

instance (m : ContainerMap) (a b : String) : Decidable (extendsStep m a b) := by
  unfold extendsStep; infer_instance

/-- A run of `get_extended` either succeeds or stops at the recursion
limit. -/
def okOrRec {β : Type} (r : Except PyErr β) : Prop :=
  (∃ b, r = .ok b) ∨ r = .error .recursionError

/-! ## Concrete maps used as witnesses and counterexamples -/

/-- A unit with a unit-level client override. -/
def cfgWebC1 : ContainerConfiguration := { clients := ["uc"] }

/-- A map with a map-level client list and one unit overriding it. -/
def mapC1 : ContainerMap :=
  { name := "m1", clients := ["mc"], containers := [("web", cfgWebC1)] }

/-- Client registry containing both named clients and the default. -/
def clientRegistryC1 : List (String × ClientConfiguration) :=
  [("mc", ⟨"hmc"⟩), ("uc", ⟨"huc"⟩), ("__default__", ⟨"hd"⟩)]

/-- The policy built over `mapC1` (its maps hold the extended form). -/
def polC1 : Policy :=
  { clients := clientRegistryC1, maps := [("m1", { mapC1 with extended := true })] }

/-- Two units extending each other: an `extends` cycle. -/
def cfgCycA : ContainerConfiguration := { extends_ := ["b"] }

/-- Second half of the two-unit `extends` cycle. -/
def cfgCycB : ContainerConfiguration := { extends_ := ["a"] }

/-- A map whose `extends` relation is the cycle `a → b → a`. -/
def mapCyc : ContainerMap :=
  { name := "mc", containers := [("a", cfgCycA), ("b", cfgCycB)] }

/-- An abstract extension parent. -/
def cfgBaseC5 : ContainerConfiguration := { image := some "baseimg", abstract := true }

/-- A concrete unit extending `base`. -/
def cfgWebC5 : ContainerConfiguration := { instances := ["1"], extends_ := ["base"] }

/-- A map with one abstract parent and one extending unit. -/
def mapC5 : ContainerMap :=
  { name := "m5", containers := [("base", cfgBaseC5), ("web", cfgWebC5)] }

/-- The extended form of `cfgWebC5`: parent attributes inherited. -/
def cfgWebC5ext : ContainerConfiguration :=
  { image := some "baseimg", instances := ["1"], extends_ := ["base"] }

/-- The extended form of `mapC5`: only the non-abstract unit, flagged. -/
def mapC5ext : ContainerMap :=
  { name := "m5", containers := [("web", cfgWebC5ext)], extended := true }

/-- A unit declaring instances `1` and `2`. -/
def cfgApp : ContainerConfiguration := { instances := ["1", "2"] }

/-- Map holding the two-instance unit `app`. -/
def mapApp : ContainerMap := { name := "ma", containers := [("app", cfgApp)] }

/-- A unit linking to `data` (one forward dependency edge). -/
def cfgWebDep : ContainerConfiguration := { links := [{ container := "data" }] }

/-- An (already extended) map with the single dependency edge `web → data`. -/
def mapDep : ContainerMap :=
  { name := "md", containers := [("web", cfgWebDep), ("data", {})], extended := true }

/-- A unit using the attachment alias `data-vol`. -/
def cfgWebUses : ContainerConfiguration := { uses := [{ volume := "data-vol" }] }

/-- A unit attaching (owning) `data-vol`. -/
def cfgDataAttach : ContainerConfiguration := { attaches := ["data-vol"] }

/-- Integrity scenario map: `web` uses `data-vol`, `data` attaches it. -/
def mapVol : ContainerMap :=
  { name := "mv", volumes := [("data-vol", "dv")],
    containers := [("web", cfgWebUses), ("data", cfgDataAttach)] }

/-- The scenario map with the `attaches` declaration removed. -/
def mapVolBroken : ContainerMap :=
  { name := "mv", volumes := [("data-vol", "dv")],
    containers := [("web", cfgWebUses), ("data", {})] }

/-- The extended form of `mapVolBroken` (no `extends` chains, so only the
flag changes). -/
def mapVolBrokenExt : ContainerMap := { mapVolBroken with extended := true }

/-- A unit using a volume name shared by nothing. -/
def cfgUsesZzz : ContainerConfiguration := { uses := [{ volume := "zzz" }] }

/-- A map with duplicated attachments *and* a dangling `uses` target: the
duplicate-attachment rule fires before the missing-shares rule. -/
def mapVolDup : ContainerMap :=
  { name := "mv", volumes := [("x", "xp")],
    containers := [("web", cfgUsesZzz),
                   ("a", { attaches := ["x"] }),
                   ("b", { attaches := ["x"] })] }

/-- The extended form of `mapVolDup` (only the flag changes). -/
def mapVolDupExt : ContainerMap := { mapVolDup with extended := true }

/-! ## Helper lemmas: dictionaries -/

theorem lookup_dictSet {β : Type} (key : String) (v : β) :
    ∀ (d : List (String × β)) (k : String),
      List.lookup k (dictSet d key v) =
        if k = key then some v else List.lookup k d := by
  intro d
  induction d with
  | nil =>
    intro k
    by_cases hk : k = key
    · subst hk; simp [dictSet, List.lookup]
    · have hb : (k == key) = false := beq_eq_false_iff_ne.mpr hk
      simp [dictSet, List.lookup, hb, hk]
  | cons hd tl ih =>
    intro k
    obtain ⟨k', v'⟩ := hd
    by_cases hk' : k' = key
    · subst hk'
      by_cases hk : k = k'
      · subst hk; simp [dictSet, List.lookup]
      · have hb : (k == k') = false := beq_eq_false_iff_ne.mpr hk
        simp [dictSet, List.lookup, hb, hk]
    · have hbk' : (k' == key) = false := beq_eq_false_iff_ne.mpr hk'
      by_cases hk : k = k'
      · subst hk
        have hkne : ¬k = key := hk'
        simp [dictSet, List.lookup, hbk', hkne]
      · have hb : (k == k') = false := beq_eq_false_iff_ne.mpr hk
        simp [dictSet, List.lookup, hbk', hb, ih]

theorem updateKwargsPair_ok_shape {α : Type} [DecidableEq α]
    {kwargs out : Kwargs α} {key : String} {u : PyVal α}
    (h : updateKwargsPair kwargs key u = .ok out) :
    out = kwargs ∨ ∃ v, out = dictSet kwargs key v := by
  unfold updateKwargsPair at h
  repeat' split at h
  all_goals
    first
      | exact absurd h (fun hh => Except.noConfusion hh)
      | exact Or.inl (Except.ok.inj h).symm
      | exact Or.inr ⟨_, (Except.ok.inj h).symm⟩

theorem updateKwargsPair_preserves {α : Type} [DecidableEq α]
    {kwargs out : Kwargs α} {key k : String} {u : PyVal α}
    (h : updateKwargsPair kwargs key u = .ok out)
    (hk : (List.lookup k kwargs).isSome) : (List.lookup k out).isSome := by
  rcases updateKwargsPair_ok_shape h with rfl | ⟨v, rfl⟩
  · exact hk
  · rw [lookup_dictSet]
    split
    · simp
    · exact hk

theorem updateKwargsPairs_preserves {α : Type} [DecidableEq α] :
    ∀ (pairs : List (String × PyVal α)) (kwargs out : Kwargs α) (k : String),
      updateKwargsPairs kwargs pairs = .ok out →
      (List.lookup k kwargs).isSome → (List.lookup k out).isSome := by
  intro pairs
  induction pairs with
  | nil =>
    intro kwargs out k h hk
    have : kwargs = out := Except.ok.inj h
    exact this ▸ hk
  | cons hd tl ih =>
    intro kwargs out k h hk
    obtain ⟨k0, u0⟩ := hd
    cases hp : updateKwargsPair kwargs k0 u0 with
    | error e => rw [updateKwargsPairs, hp] at h; exact absurd h (fun hh => Except.noConfusion hh)
    | ok kwargs' =>
      rw [updateKwargsPairs, hp] at h
      exact ih kwargs' out k h (updateKwargsPair_preserves hp hk)

theorem updateKwargs_preserves {α : Type} [DecidableEq α] :
    ∀ (updates : List (List (String × PyVal α))) (kwargs out : Kwargs α)
      (k : String),
      updateKwargs kwargs updates = .ok out →
      (List.lookup k kwargs).isSome → (List.lookup k out).isSome := by
  intro updates
  induction updates with
  | nil =>
    intro kwargs out k h hk
    have : kwargs = out := Except.ok.inj h
    exact this ▸ hk
  | cons upd rest ih =>
    intro kwargs out k h hk
    by_cases hu : upd.isEmpty
    · simp only [updateKwargs, hu, if_true] at h
      exact ih kwargs out k h hk
    · rw [updateKwargs, if_neg hu] at h
      cases hp : updateKwargsPairs kwargs upd with
      | error e => rw [hp] at h; exact absurd h (fun hh => Except.noConfusion hh)
      | ok kwargs' =>
        rw [hp] at h
        exact ih kwargs' out k h (updateKwargsPairs_preserves upd kwargs kwargs' k hp hk)

/-! ## Claim theorems -/

/-- C10: a key whose value in an update dictionary is falsy (`None`, `False`,
`0`, empty string, empty list, empty dict) is skipped by `update_kwargs`,
leaving the base kwargs unchanged for that pair, and a key present in the
base kwargs is still present after any successful `update_kwargs` call — no
existing key is ever removed, and a falsy update value never overrides an
existing entry. -/
theorem update_kwargs_falsy_skipped_and_no_key_removed {α : Type} [DecidableEq α]
    (kwargs : Kwargs α) (key : String) (u : PyVal α) (hu : u.truthy = false)
    (updates : List (List (String × PyVal α))) (kwargs' : Kwargs α) (k : String)
    (hrun : updateKwargs kwargs updates = .ok kwargs')
    (hk : (List.lookup k kwargs).isSome) :
    updateKwargsPair kwargs key u = .ok kwargs ∧ (List.lookup k kwargs').isSome := by
  constructor
  · unfold updateKwargsPair
    rw [hu]
    simp
  · exact updateKwargs_preserves updates kwargs kwargs' k hrun hk

/-- C10 witness: an update whose value for the existing key `a` is `None`
leaves `a` at its old value (and present); the truthy value for the fresh key
`b` is added. -/
theorem update_kwargs_falsy_skipped_witness :
    updateKwargsPair [("a", PyVal.pyInt (α := Unit) 1)] "a" PyVal.pyNone =
      .ok [("a", PyVal.pyInt 1)] ∧
    (List.lookup "a" [("a", PyVal.pyInt (α := Unit) 1), ("b", PyVal.pyInt 2)]).isSome := by
  exact update_kwargs_falsy_skipped_and_no_key_removed
    [("a", PyVal.pyInt 1)] "a" PyVal.pyNone rfl
    [[("a", PyVal.pyNone), ("b", PyVal.pyInt 2)]]
    [("a", PyVal.pyInt 1), ("b", PyVal.pyInt 2)] "a" (by decide) (by decide)

/-! ## Helper lemmas: sorting, chunking, group/expand on a single unit -/

theorem keyLt_self (k : String × String) : keyLt k k = false := by
  simp [keyLt]

theorem insertSortedBy_uniform {γ : Type} (k : String × String)
    (x : String × String × γ) (hx : getMapConfig x = k) :
    ∀ (acc : List (String × String × γ)),
      (∀ y ∈ acc, getMapConfig y = k) → insertSortedBy x acc = acc ++ [x] := by
  intro acc
  induction acc with
  | nil => intro _; rfl
  | cons y ys ih =>
    intro h
    have hy : getMapConfig y = k := h y (List.mem_cons_self y ys)
    have : keyLt (getMapConfig x) (getMapConfig y) = false := by
      rw [hx, hy]; exact keyLt_self k
    simp only [insertSortedBy, this, Bool.false_eq_true, if_false,
      List.cons_append, List.cons.injEq, true_and]
    exact ih (fun z hz => h z (List.mem_cons_of_mem y hz))

theorem pySortedBy_uniform {γ : Type} (k : String × String) :
    ∀ (l acc : List (String × String × γ)),
      (∀ x ∈ l, getMapConfig x = k) → (∀ y ∈ acc, getMapConfig y = k) →
      l.foldl (fun acc x => insertSortedBy x acc) acc = acc ++ l := by
  intro l
  induction l with
  | nil => intro acc _ _; simp
  | cons x xs ih =>
    intro acc hl hacc
    have hx : getMapConfig x = k := hl x (List.mem_cons_self x xs)
    have step : insertSortedBy x acc = acc ++ [x] :=
      insertSortedBy_uniform k x hx acc hacc
    simp only [List.foldl_cons, step]
    have haccx : ∀ y ∈ acc ++ [x], getMapConfig y = k := by
      intro y hy
      rcases List.mem_append.mp hy with hy | hy
      · exact hacc y hy
      · rcases List.mem_singleton.mp hy with rfl; exact hx
    rw [ih (acc ++ [x]) (fun z hz => hl z (List.mem_cons_of_mem x hz)) haccx]
    simp

theorem pySorted_uniform {γ : Type} (k : String × String)
    (l : List (String × String × γ)) (h : ∀ x ∈ l, getMapConfig x = k) :
    pySortedBy l = l := by
  unfold pySortedBy
  simpa using pySortedBy_uniform k l [] h (by intro y hy; cases hy)

theorem chunkBy_uniform {γ : Type} (k : String × String) :
    ∀ (l : List (String × String × γ)), (∀ x ∈ l, getMapConfig x = k) →
      l ≠ [] → chunkBy l = [(k, l)] := by
  intro l
  induction l with
  | nil => intro _ h; exact absurd rfl h
  | cons x xs ih =>
    intro h _
    have hx : getMapConfig x = k := h x (List.mem_cons_self x xs)
    cases xs with
    | nil => simp [chunkBy, hx]
    | cons y ys =>
      have hxs : chunkBy (y :: ys) = [(k, y :: ys)] :=
        ih (fun z hz => h z (List.mem_cons_of_mem x hz)) (by simp)
      have hstep : chunkBy (x :: y :: ys) =
          (match chunkBy (y :: ys) with
           | [] => [(getMapConfig x, [x])]
           | (k', g) :: rest =>
             if getMapConfig x == k' then (k', x :: g) :: rest
             else (getMapConfig x, [x]) :: (k', g) :: rest) := rfl
      rw [hstep, hxs]
      simp [hx]

theorem groupInstances_single_unit (extMap : ContainerMap)
    (mapName configName : String) (config : ContainerConfiguration)
    (S : List (Option String))
    (hlk : extMap.getExisting configName = some config)
    (hD : config.instances ≠ []) (hS : S ≠ []) :
    groupInstances extMap (S.map (fun i => (mapName, configName, i))) =
      .ok [(mapName, configName,
        if none ∈ S ∨ S.length = config.instances.length
        then ([none] : List (Option String)) else S)] := by
  unfold groupInstances
  have huni : ∀ x ∈ S.map (fun i => (mapName, configName, i)),
      getMapConfig x = (mapName, configName) := by
    intro x hx
    obtain ⟨i, _, rfl⟩ := List.mem_map.mp hx
    rfl
  have hne : S.map (fun i => (mapName, configName, i)) ≠ [] := by
    simpa using hS
  rw [pySorted_uniform _ _ huni, chunkBy_uniform _ _ huni hne]
  have hproj : (S.map (fun i => (mapName, configName, i))).map
      (fun t => t.2.2) = S := by
    rw [List.map_map]; exact List.map_id S
  have hie : config.instances.isEmpty = false := by
    simpa [List.isEmpty_iff] using hD
  by_cases hc : none ∈ S ∨ S.length = config.instances.length
  · have hc' : none ∈ (S.map (fun i => (mapName, configName, i))).map
        (fun t => t.2.2) ∨
        ((S.map (fun i => (mapName, configName, i))).map
          (fun t => t.2.2)).length = config.instances.length := by
      rw [hproj]; exact hc
    simp [groupChunks, hlk, hie, hproj, hc, if_pos hc]
  · simp [groupChunks, hlk, hie, hproj, hc, if_neg hc]

theorem expandInstances_single_unit (extMap : ContainerMap)
    (mapName configName : String) (config : ContainerConfiguration)
    (L : List (Option String))
    (hlk : extMap.getExisting configName = some config) (hL : L ≠ []) :
    expandInstances extMap [(mapName, configName, L)] =
      .ok (if !config.instances.isEmpty ∧ none ∈ L
        then config.instances.map (fun i => (mapName, configName, some i))
        else L.map (fun i => (mapName, configName, i))) := by
  unfold expandInstances
  have hsort : pySortedBy [(mapName, configName, L)] = [(mapName, configName, L)] := rfl
  have hchunk : chunkBy [(mapName, configName, L)] =
      [((mapName, configName), [(mapName, configName, L)])] := rfl
  rw [hsort, hchunk]
  have hnest : nestedInstances [(mapName, configName, L)] = L := by
    have : L.isEmpty = false := by simpa [List.isEmpty_iff] using hL
    simp [nestedInstances, this]
    intro h
    exact absurd h hL
  by_cases hc : !config.instances.isEmpty ∧ none ∈ L
  · simp [expandChunks, hlk, hnest, hc]
  · simp [expandChunks, hlk, hnest, hc]

/-- C7: `group_instances` replaces the collected instance set of a unit with
declared instances by the wildcard tuple `(None,)` exactly when the set
contains the wildcard or its size equals the declared instance count;
otherwise the explicit set passes through. -/
theorem group_instances_wildcard_collapse (extMap : ContainerMap)
    (mapName configName : String) (config : ContainerConfiguration)
    (S : List (Option String))
    (hlk : extMap.getExisting configName = some config)
    (hD : config.instances ≠ []) (hS : S ≠ []) :
    groupInstances extMap (S.map (fun i => (mapName, configName, i))) =
      .ok [(mapName, configName,
        if none ∈ S ∨ S.length = config.instances.length
        then ([none] : List (Option String)) else S)] :=
  groupInstances_single_unit extMap mapName configName config S hlk hD hS

/-- C7 witness: unit `app` declares instances `[1, 2]`; the request
`{1, 2}` collapses to the wildcard `(None,)`, the request `{1}` does not. -/
theorem group_instances_wildcard_collapse_witness :
    groupInstances mapApp ([some "1", some "2"].map (fun i => ("ma", "app", i))) =
      .ok [("ma", "app", ([none] : List (Option String)))] ∧
    groupInstances mapApp ([some "1"].map (fun i => ("ma", "app", i))) =
      .ok [("ma", "app", [some "1"])] := by
  constructor
  · have h := group_instances_wildcard_collapse mapApp "ma" "app" cfgApp
      [some "1", some "2"] rfl (by decide) (by decide)
    rw [if_pos (by decide)] at h
    exact h
  · have h := group_instances_wildcard_collapse mapApp "ma" "app" cfgApp
      [some "1"] rfl (by decide) (by decide)
    rw [if_neg (by decide)] at h
    exact h

/-- C6: Group-then-Expand round trip for a unit with declared instances:
a set without the wildcard whose size differs from the declared count passes
through unchanged; a set containing the wildcard or matching the declared
count comes back as the full declared instance list. -/
theorem group_then_expand_round_trip (extMap : ContainerMap)
    (mapName configName : String) (config : ContainerConfiguration)
    (S : List (Option String))
    (hlk : extMap.getExisting configName = some config)
    (hD : config.instances ≠ []) :
    (none ∉ S → S.length ≠ config.instances.length →
      (groupInstances extMap (S.map (fun i => (mapName, configName, i)))).bind
          (expandInstances extMap) =
        .ok (S.map (fun i => (mapName, configName, i)))) ∧
    (none ∈ S ∨ S.length = config.instances.length →
      (groupInstances extMap (S.map (fun i => (mapName, configName, i)))).bind
          (expandInstances extMap) =
        .ok (config.instances.map (fun i => (mapName, configName, some i)))) := by
  constructor
  · intro hno hlen
    cases hS : S with
    | nil => rfl
    | cons s ss =>
      rw [← hS]
      have hSne : S ≠ [] := by rw [hS]; simp
      have hgroup := groupInstances_single_unit extMap mapName configName config
        S hlk hD hSne
      rw [if_neg (by
        intro hc
        rcases hc with hc | hc
        · exact hno hc
        · exact hlen hc)] at hgroup
      rw [hgroup]
      show expandInstances extMap [(mapName, configName, S)] = _
      rw [expandInstances_single_unit extMap mapName configName config S hlk hSne]
      rw [if_neg (by
        intro hc
        exact hno hc.2)]
  · intro hc
    have hSne : S ≠ [] := by
      rcases hc with hc | hc
      · exact List.ne_nil_of_mem hc
      · intro hnil
        rw [hnil] at hc
        simp at hc
        exact hD (List.length_eq_zero.mp hc.symm)
    have hgroup := groupInstances_single_unit extMap mapName configName config
      S hlk hD hSne
    rw [if_pos hc] at hgroup
    rw [hgroup]
    show expandInstances extMap [(mapName, configName, [none])] = _
    rw [expandInstances_single_unit extMap mapName configName config [none] hlk
      (by simp)]
    rw [if_pos (by
      refine ⟨?_, by simp⟩
      simpa [List.isEmpty_iff] using hD)]

/-- C6 witness: on unit `app` with instances `[1, 2]`, the strict subset
`{1}` survives the Group-Expand round trip unchanged, while the full set
`{1, 2}` comes back as the full declared instance list. -/
theorem group_then_expand_round_trip_witness :
    (groupInstances mapApp ([some "1"].map (fun i => ("ma", "app", i)))).bind
        (expandInstances mapApp) =
      .ok ([some "1"].map (fun i => ("ma", "app", i))) ∧
    (groupInstances mapApp
        ([some "1", some "2"].map (fun i => ("ma", "app", i)))).bind
        (expandInstances mapApp) =
      .ok (cfgApp.instances.map (fun i => ("ma", "app", some i))) := by
  constructor
  · exact (group_then_expand_round_trip mapApp "ma" "app" cfgApp [some "1"]
      rfl (by decide)).1 (by decide) (by decide)
  · exact (group_then_expand_round_trip mapApp "ma" "app" cfgApp
      [some "1", some "2"] rfl (by decide)).2 (by decide)

/-! ## Helper lemmas: extension resolution and cycles -/

theorem getExtended_zero (m : ContainerMap) (cfg : ContainerConfiguration) :
    getExtended m 0 cfg = .error .recursionError := rfl

theorem getExtended_succ (m : ContainerMap) (n : Nat)
    (config : ContainerConfiguration) :
    getExtended m (n + 1) config =
      (if config.extends_.isEmpty || m.extended then .ok config
       else
         match extendParentsWith m (getExtended m n) config.extends_ {} with
         | .error e => .error e
         | .ok acc => .ok (mergeFromObj acc config)) := rfl

theorem mem_of_lookup_eq_some {β : Type} :
    ∀ {l : List (String × β)} {k : String} {v : β},
      List.lookup k l = some v → (k, v) ∈ l := by
  intro l
  induction l with
  | nil => intro k v h; simp [List.lookup] at h
  | cons hd tl ih =>
    intro k v h
    obtain ⟨k', v'⟩ := hd
    by_cases hk : k = k'
    · subst hk
      simp only [List.lookup, beq_self_eq_true] at h
      injection h with h
      subst h
      exact List.mem_cons_self _ _
    · have hb : (k == k') = false := beq_eq_false_iff_ne.mpr hk
      simp only [List.lookup, hb] at h
      exact List.mem_cons_of_mem _ (ih h)

theorem getExtended_okOrRec (m : ContainerMap)
    (hwf : ∀ p ∈ m.containers, ∀ e ∈ p.2.extends_,
      (List.lookup e m.containers).isSome) :
    ∀ fuel : Nat,
      (∀ u cfg, List.lookup u m.containers = some cfg →
        okOrRec (getExtended m fuel cfg)) ∧
      (∀ (l : List String) (acc : ContainerConfiguration),
        (∀ e ∈ l, (List.lookup e m.containers).isSome) →
        okOrRec (extendParentsWith m (getExtended m fuel) l acc)) := by
  intro fuel
  induction fuel with
  | zero =>
    constructor
    · intro u cfg _
      exact Or.inr rfl
    · intro l
      induction l with
      | nil => intro acc _; exact Or.inl ⟨acc, rfl⟩
      | cons e rest ihl =>
        intro acc h
        obtain ⟨ce, hce⟩ := Option.isSome_iff_exists.mp
          (h e (List.mem_cons_self e rest))
        simp only [extendParentsWith, hce]
        exact Or.inr rfl
  | succ n ih =>
    have part1 : ∀ u cfg, List.lookup u m.containers = some cfg →
        okOrRec (getExtended m (n + 1) cfg) := by
      intro u cfg hu
      rw [getExtended_succ]
      by_cases hif : (cfg.extends_.isEmpty || m.extended) = true
      · rw [if_pos hif]
        exact Or.inl ⟨cfg, rfl⟩
      · rw [if_neg hif]
        have hl : ∀ e ∈ cfg.extends_, (List.lookup e m.containers).isSome :=
          fun e he => hwf (u, cfg) (mem_of_lookup_eq_some hu) e he
        rcases ih.2 cfg.extends_ {} hl with ⟨b, hb⟩ | hb
        · rw [hb]; exact Or.inl ⟨_, rfl⟩
        · rw [hb]; exact Or.inr rfl
    refine ⟨part1, ?_⟩
    intro l
    induction l with
    | nil => intro acc _; exact Or.inl ⟨acc, rfl⟩
    | cons e rest ihl =>
      intro acc h
      obtain ⟨ce, hce⟩ := Option.isSome_iff_exists.mp
        (h e (List.mem_cons_self e rest))
      rcases part1 e ce hce with ⟨b, hb⟩ | hb
      · simp only [extendParentsWith, hce, hb]
        exact ihl _ (fun x hx => h x (List.mem_cons_of_mem e hx))
      · simp only [extendParentsWith, hce, hb]
        exact Or.inr rfl

theorem getExtended_cycle_aux (m : ContainerMap) (hext : m.extended = false)
    (hwf : ∀ p ∈ m.containers, ∀ e ∈ p.2.extends_,
      (List.lookup e m.containers).isSome) :
    ∀ (fuel : Nat) (u : String) (cfg : ContainerConfiguration),
      Relation.TransGen (extendsStep m) u u →
      List.lookup u m.containers = some cfg →
      getExtended m fuel cfg = .error .recursionError := by
  intro fuel
  induction fuel with
  | zero => intro u cfg _ _; rfl
  | succ n ih =>
    intro u cfg hcyc hu
    obtain ⟨v, huv, hvcyc⟩ : ∃ v, extendsStep m u v ∧
        Relation.TransGen (extendsStep m) v v := by
      obtain ⟨b, hub, hbu⟩ := Relation.TransGen.head'_iff.mp hcyc
      exact ⟨b, hub, Relation.TransGen.tail' hbu hub⟩
    obtain ⟨cu, hcu, hvmem⟩ := huv
    rw [hu] at hcu
    injection hcu with hcu
    subst hcu
    have hvlk : (List.lookup v m.containers).isSome :=
      hwf (u, cfg) (mem_of_lookup_eq_some hu) v hvmem
    rw [getExtended_succ]
    have hne : cfg.extends_.isEmpty = false := by
      have : cfg.extends_ ≠ [] := List.ne_nil_of_mem hvmem
      simpa [List.isEmpty_iff] using this
    rw [hne, hext]
    simp only [Bool.or_self, Bool.false_eq_true, if_false]
    have main : ∀ (l : List String) (acc : ContainerConfiguration), v ∈ l →
        (∀ e ∈ l, (List.lookup e m.containers).isSome) →
        extendParentsWith m (getExtended m n) l acc = .error .recursionError := by
      intro l
      induction l with
      | nil => intro acc hvl _; cases hvl
      | cons e rest ihl =>
        intro acc hvl hall
        obtain ⟨ce, hce⟩ := Option.isSome_iff_exists.mp
          (hall e (List.mem_cons_self e rest))
        by_cases hev : e = v
        · subst hev
          have herr : getExtended m n ce = .error .recursionError :=
            ih e ce hvcyc hce
          simp only [extendParentsWith, hce, herr]
        · have hvrest : v ∈ rest := by
            rcases List.mem_cons.mp hvl with hvl | hvl
            · exact absurd hvl.symm hev
            · exact hvl
          rcases (getExtended_okOrRec m hwf n).1 e ce hce with ⟨b, hb⟩ | hb
          · simp only [extendParentsWith, hce, hb]
            exact ihl _ hvrest (fun x hx => hall x (List.mem_cons_of_mem e hx))
          · simp only [extendParentsWith, hce, hb]
    rw [main cfg.extends_ {} hvmem
      (fun e he => hwf (u, cfg) (mem_of_lookup_eq_some hu) e he)]

/-- C2: on a map whose `extends` relation has a cycle through unit `u`
(and whose `extends` references all resolve), `get_extended` on `u`'s
configuration never loops: for every remaining recursion depth it terminates
with the interpreter's recursion-guard error (`RecursionError`) — the source
has no explicit cycle guard, so this is the guard that fires. -/
theorem get_extended_cycle_raises (m : ContainerMap) (hext : m.extended = false)
    (hwf : ∀ p ∈ m.containers, ∀ e ∈ p.2.extends_,
      (List.lookup e m.containers).isSome)
    (u : String) (hcyc : Relation.TransGen (extendsStep m) u u)
    (cfg : ContainerConfiguration)
    (hu : List.lookup u m.containers = some cfg) :
    ∀ fuel : Nat, getExtended m fuel cfg = .error .recursionError :=
  fun fuel => getExtended_cycle_aux m hext hwf fuel u cfg hcyc hu

/-- C2 witness: on the two-unit cycle `a extends b extends a`, resolving `a`
with stack budget 50 raises `RecursionError`. -/
theorem get_extended_cycle_raises_witness :
    getExtended mapCyc 50 cfgCycA = .error .recursionError := by
  have h1 : extendsStep mapCyc "a" "b" := ⟨cfgCycA, rfl, by decide⟩
  have h2 : extendsStep mapCyc "b" "a" := ⟨cfgCycB, rfl, by decide⟩
  have hcyc : Relation.TransGen (extendsStep mapCyc) "a" "a" :=
    (Relation.TransGen.single h1).tail h2
  exact get_extended_cycle_raises mapCyc rfl (by decide) "a" hcyc cfgCycA rfl 50

/-! ## Helper lemmas: extended maps -/

theorem getExtended_ok_abstract (m : ContainerMap) (fuel : Nat)
    (cfg c' : ContainerConfiguration) (h : getExtended m fuel cfg = .ok c') :
    c'.abstract = cfg.abstract := by
  cases fuel with
  | zero => rw [getExtended_zero] at h; cases h
  | succ n =>
    rw [getExtended_succ] at h
    by_cases hif : (cfg.extends_.isEmpty || m.extended) = true
    · rw [if_pos hif] at h
      injection h with h
      subst h
      rfl
    · rw [if_neg hif] at h
      cases hp : extendParentsWith m (getExtended m n) cfg.extends_ {} with
      | error e => rw [hp] at h; cases h
      | ok acc =>
        rw [hp] at h
        injection h with h
        subst h
        rfl

theorem extendAll_ok_mem {m : ContainerMap} {fuel : Nat} :
    ∀ {l l' : List (String × ContainerConfiguration)},
      extendAll m fuel l = .ok l' →
      ∀ q ∈ l', ∃ p, p ∈ l ∧ p.1 = q.1 ∧ getExtended m fuel p.2 = .ok q.2 := by
  intro l
  induction l with
  | nil =>
    intro l' h q hq
    simp only [extendAll] at h
    injection h with h
    subst h
    cases hq
  | cons hd tl ih =>
    intro l' h q hq
    obtain ⟨cName, cConfig⟩ := hd
    simp only [extendAll] at h
    cases hg : getExtended m fuel cConfig with
    | error e => rw [hg] at h; cases h
    | ok ext =>
      rw [hg] at h
      cases hr : extendAll m fuel tl with
      | error e => rw [hr] at h; cases h
      | ok exts =>
        rw [hr] at h
        injection h with h
        subst h
        rcases List.mem_cons.mp hq with rfl | hq
        · exact ⟨(cName, cConfig), List.mem_cons_self _ _, rfl, hg⟩
        · obtain ⟨p, hp, h1, h2⟩ := ih hr q hq
          exact ⟨p, List.mem_cons_of_mem _ hp, h1, h2⟩

theorem extendAll_zero_ok {m : ContainerMap}
    {l cs : List (String × ContainerConfiguration)}
    (h : extendAll m 0 l = .ok cs) : l = [] ∧ cs = [] := by
  cases l with
  | nil =>
    simp only [extendAll] at h
    injection h with h
    exact ⟨rfl, h.symm⟩
  | cons hd tl =>
    obtain ⟨a, b⟩ := hd
    simp only [extendAll, getExtended_zero] at h
    cases h

theorem extendAll_of_id {m : ContainerMap} {fuel : Nat} :
    ∀ {l : List (String × ContainerConfiguration)},
      (∀ q ∈ l, getExtended m fuel q.2 = .ok q.2) →
      extendAll m fuel l = .ok l := by
  intro l
  induction l with
  | nil => intro _; rfl
  | cons hd tl ih =>
    intro h
    simp only [extendAll, h hd (List.mem_cons_self hd tl)]
    rw [ih (fun q hq => h q (List.mem_cons_of_mem hd hq))]

/-- C5: extending a map is idempotent.  If `get_extended_map` succeeds, the
result is flagged extended, `get_extended` on any configuration of an
extended map returns it unchanged (given a stack frame to enter the call),
and running `get_extended_map` again returns the very same map. -/
theorem get_extended_map_idempotent (m m' : ContainerMap) (fuel : Nat)
    (h : getExtendedMap m fuel = .ok m') :
    m'.extended = true ∧
    (∀ (cfg : ContainerConfiguration) (n : Nat),
      getExtended m' (n + 1) cfg = .ok cfg) ∧
    getExtendedMap m' fuel = .ok m' := by
  unfold getExtendedMap at h
  cases hext : extendAll m fuel m.items with
  | error e => rw [hext] at h; cases h
  | ok cs =>
    rw [hext] at h
    injection h with h
    subst h
    refine ⟨rfl, ?_, ?_⟩
    · intro cfg n
      rw [getExtended_succ]
      simp
    · have habs : ∀ q ∈ cs, q.2.abstract = false := by
        intro q hq
        obtain ⟨p, hp, _, hg⟩ := extendAll_ok_mem hext q hq
        rw [getExtended_ok_abstract m fuel p.2 q.2 hg]
        have hmem := List.mem_filter.mp hp
        simpa using hmem.2
      have hitems :
          ContainerMap.items { m with containers := cs, extended := true } = cs := by
        unfold ContainerMap.items
        rw [List.filter_eq_self.mpr ?_]
        intro a ha
        simp [habs a ha]
      unfold getExtendedMap
      rw [hitems]
      cases fuel with
      | zero =>
        obtain ⟨_, hcs⟩ := extendAll_zero_ok hext
        subst hcs
        rfl
      | succ n =>
        rw [extendAll_of_id (fun q hq => by rw [getExtended_succ]; simp)]

/-- C5 witness: extending the concrete map with one abstract parent and one
extending unit yields `mapC5ext`; re-extending `mapC5ext` is a no-op and
`get_extended` on its unit returns it unchanged. -/
theorem get_extended_map_idempotent_witness :
    mapC5ext.extended = true ∧
    getExtended mapC5ext 1 cfgWebC5ext = .ok cfgWebC5ext ∧
    getExtendedMap mapC5ext 10 = .ok mapC5ext := by
  have h := get_extended_map_idempotent mapC5 mapC5ext 10 (by decide)
  exact ⟨h.1, h.2.1 cfgWebC5ext 0, h.2.2⟩

/-! ## Helper lemmas: membership through dedup, sort and chunking -/

theorem mem_dedupFirstAux {β : Type} [DecidableEq β] :
    ∀ (l seen : List β) (a : β),
      a ∈ dedupFirstAux seen l ↔ a ∈ l ∧ a ∉ seen := by
  intro l
  induction l with
  | nil => intro seen a; simp [dedupFirstAux]
  | cons x xs ih =>
    intro seen a
    by_cases hx : x ∈ seen
    · rw [dedupFirstAux, if_pos hx, ih]
      constructor
      · rintro ⟨h1, h2⟩
        exact ⟨List.mem_cons_of_mem _ h1, h2⟩
      · rintro ⟨h1, h2⟩
        rcases List.mem_cons.mp h1 with rfl | h1
        · exact absurd hx h2
        · exact ⟨h1, h2⟩
    · rw [dedupFirstAux, if_neg hx]
      constructor
      · intro h
        rcases List.mem_cons.mp h with rfl | h
        · exact ⟨List.mem_cons_self _ _, hx⟩
        · rw [ih] at h
          obtain ⟨h1, h2⟩ := h
          exact ⟨List.mem_cons_of_mem _ h1,
            fun hs => h2 (List.mem_cons_of_mem _ hs)⟩
      · rintro ⟨h1, h2⟩
        rcases List.mem_cons.mp h1 with rfl | h1
        · exact List.mem_cons_self _ _
        · by_cases hax : a = x
          · subst hax; exact List.mem_cons_self _ _
          · refine List.mem_cons_of_mem _ ?_
            rw [ih]
            refine ⟨h1, ?_⟩
            intro hs
            rcases List.mem_cons.mp hs with h | h
            · exact hax h
            · exact h2 h

theorem mem_dedupFirst {β : Type} [DecidableEq β] (l : List β) (a : β) :
    a ∈ dedupFirst l ↔ a ∈ l := by
  unfold dedupFirst
  rw [mem_dedupFirstAux]
  simp

theorem mem_insertSortedBy {γ : Type} (x : String × String × γ) :
    ∀ (acc : List (String × String × γ)) (a : String × String × γ),
      a ∈ insertSortedBy x acc ↔ a = x ∨ a ∈ acc := by
  intro acc
  induction acc with
  | nil => intro a; simp [insertSortedBy]
  | cons y ys ih =>
    intro a
    rw [insertSortedBy]
    split
    · simp [List.mem_cons]
    · rw [List.mem_cons, ih]
      constructor
      · rintro (rfl | h | h)
        · exact Or.inr (List.mem_cons_self _ _)
        · exact Or.inl h
        · exact Or.inr (List.mem_cons_of_mem _ h)
      · rintro (rfl | h)
        · exact Or.inr (Or.inl rfl)
        · rcases List.mem_cons.mp h with rfl | h
          · exact Or.inl rfl
          · exact Or.inr (Or.inr h)

theorem mem_pySortedBy {γ : Type} :
    ∀ (l acc : List (String × String × γ)) (a : String × String × γ),
      a ∈ l.foldl (fun acc x => insertSortedBy x acc) acc ↔ a ∈ acc ∨ a ∈ l := by
  intro l
  induction l with
  | nil => intro acc a; simp
  | cons x xs ih =>
    intro acc a
    rw [List.foldl_cons, ih, mem_insertSortedBy]
    constructor
    · rintro ((rfl | h) | h)
      · exact Or.inr (List.mem_cons_self _ _)
      · exact Or.inl h
      · exact Or.inr (List.mem_cons_of_mem _ h)
    · rintro (h | h)
      · exact Or.inl (Or.inr h)
      · rcases List.mem_cons.mp h with rfl | h
        · exact Or.inl (Or.inl rfl)
        · exact Or.inr h

theorem mem_pySorted {γ : Type} (l : List (String × String × γ))
    (a : String × String × γ) : a ∈ pySortedBy l ↔ a ∈ l := by
  unfold pySortedBy
  rw [mem_pySortedBy]
  simp

theorem chunkBy_keys {γ : Type} :
    ∀ (l : List (String × String × γ))
      (ck : (String × String) × List (String × String × γ)),
      ck ∈ chunkBy l → ∃ t ∈ l, getMapConfig t = ck.1 := by
  intro l
  induction l with
  | nil => intro ck hck; cases hck
  | cons x xs ih =>
    intro ck hck
    have hstep : chunkBy (x :: xs) =
        (match chunkBy xs with
         | [] => [(getMapConfig x, [x])]
         | (k', g) :: rest =>
           if getMapConfig x == k' then (k', x :: g) :: rest
           else (getMapConfig x, [x]) :: (k', g) :: rest) := rfl
    rw [hstep] at hck
    cases hxs : chunkBy xs with
    | nil =>
      rw [hxs] at hck
      rcases List.mem_singleton.mp hck with rfl
      exact ⟨x, List.mem_cons_self _ _, rfl⟩
    | cons kg rest =>
      obtain ⟨k', g⟩ := kg
      rw [hxs] at hck
      dsimp only at hck
      by_cases hkk : (getMapConfig x == k') = true
      · rw [if_pos hkk] at hck
        rcases List.mem_cons.mp hck with rfl | hck
        · exact ⟨x, List.mem_cons_self _ _, by simpa using hkk⟩
        · obtain ⟨t, ht, ht2⟩ := ih ck (hxs ▸ List.mem_cons_of_mem _ hck)
          exact ⟨t, List.mem_cons_of_mem _ ht, ht2⟩
      · rw [if_neg hkk] at hck
        rcases List.mem_cons.mp hck with rfl | hck
        · exact ⟨x, List.mem_cons_self _ _, rfl⟩
        · obtain ⟨t, ht, ht2⟩ := ih ck (hxs ▸ hck)
          exact ⟨t, List.mem_cons_of_mem _ ht, ht2⟩

theorem groupChunks_ok_keys {extMap : ContainerMap} :
    ∀ {chunks : List ((String × String) × List SingleId)} {out : List MapCfgId},
      groupChunks extMap chunks = .ok out →
      ∀ x ∈ out, ∃ ck ∈ chunks, ck.1 = (x.1, x.2.1) := by
  intro chunks
  induction chunks with
  | nil =>
    intro out h x hx
    injection h with h
    subst h
    cases hx
  | cons ck rest ih =>
    intro out h x hx
    obtain ⟨⟨mapName, configName⟩, items⟩ := ck
    simp only [groupChunks] at h
    cases hlk : extMap.getExisting configName with
    | none => rw [hlk] at h; cases h
    | some config =>
      rw [hlk] at h
      cases hrest : groupChunks extMap rest with
      | error e => rw [hrest] at h; cases h
      | ok outRest =>
        rw [hrest] at h
        injection h with h
        subst h
        rcases List.mem_cons.mp hx with rfl | hx
        · refine ⟨((mapName, configName), items), List.mem_cons_self _ _, ?_⟩
          split <;> rfl
        · obtain ⟨ck', hck', h1⟩ := ih hrest x hx
          exact ⟨ck', List.mem_cons_of_mem _ hck', h1⟩

theorem groupInstances_ok_keys {extMap : ContainerMap} {d : List SingleId}
    {g : List MapCfgId} (h : groupInstances extMap d = .ok g) :
    ∀ x ∈ g, ∃ t ∈ d, t.1 = x.1 ∧ t.2.1 = x.2.1 := by
  intro x hx
  obtain ⟨ck, hck, h1⟩ := groupChunks_ok_keys h x hx
  obtain ⟨t, ht, ht2⟩ := chunkBy_keys _ ck hck
  refine ⟨t, (mem_pySorted _ _).mp ht, ?_, ?_⟩
  · have := ht2.trans h1
    exact congrArg Prod.fst this
  · have := ht2.trans h1
    exact congrArg Prod.snd this

theorem dependencyItemsRevList_wildcard {m extMap : ContainerMap} :
    ∀ {l : List (String × ContainerConfiguration)}
      {rev : List (MapCfgId × List (String × String))},
      dependencyItemsRevList m extMap l = .ok rev →
      ∀ e ∈ rev, e.1.2.2 = ([none] : List (Option String)) := by
  intro l
  induction l with
  | nil =>
    intro rev h e he
    injection h with h
    subst h
    cases he
  | cons hd tl ih =>
    intro rev h e he
    obtain ⟨cName, cConfig⟩ := hd
    simp only [dependencyItemsRevList] at h
    cases hd1 : depSet m extMap cConfig with
    | error e1 => rw [hd1] at h; cases h
    | ok dSet =>
      rw [hd1] at h
      cases hrest : dependencyItemsRevList m extMap tl with
      | error e2 => rw [hrest] at h; cases h
      | ok revRest =>
        rw [hrest] at h
        injection h with h
        subst h
        rcases List.mem_cons.mp he with rfl | he
        · rfl
        · exact ih hrest e he

theorem fwdRev_edges {m extMap : ContainerMap} :
    ∀ {l : List (String × ContainerConfiguration)}
      {fwd : List ((String × String) × List MapCfgId)}
      {rev : List (MapCfgId × List (String × String))},
      dependencyItemsFwdList m extMap l = .ok fwd →
      dependencyItemsRevList m extMap l = .ok rev →
      ∀ e ∈ fwd, ∀ b ∈ e.2,
        ∃ s, ((e.1.1, e.1.2, ([none] : List (Option String))), s) ∈ rev ∧
          (b.1, b.2.1) ∈ s := by
  intro l
  induction l with
  | nil =>
    intro fwd rev hf _ e he
    injection hf with hf
    subst hf
    cases he
  | cons hd tl ih =>
    intro fwd rev hf hr e he b hb
    obtain ⟨cName, cConfig⟩ := hd
    simp only [dependencyItemsFwdList] at hf
    simp only [dependencyItemsRevList] at hr
    cases hd1 : depSet m extMap cConfig with
    | error e1 => rw [hd1] at hf; cases hf
    | ok dSet =>
      rw [hd1] at hf hr
      dsimp only at hf hr
      cases hg : groupInstances extMap dSet with
      | error eg => rw [hg] at hf; cases hf
      | ok grouped =>
        rw [hg] at hf
        dsimp only at hf
        cases hrest : dependencyItemsFwdList m extMap tl with
        | error e2 => rw [hrest] at hf; cases hf
        | ok fwdRest =>
          rw [hrest] at hf
          dsimp only at hf
          injection hf with hf
          subst hf
          cases hrrest : dependencyItemsRevList m extMap tl with
          | error e3 => rw [hrrest] at hr; cases hr
          | ok revRest =>
            rw [hrrest] at hr
            dsimp only at hr
            injection hr with hr
            subst hr
            rcases List.mem_cons.mp he with rfl | he
            · refine ⟨dedupFirst (dSet.map getMapConfig),
                List.mem_cons_self _ _, ?_⟩
              have hbg : b ∈ grouped := (mem_dedupFirst _ _).mp hb
              obtain ⟨t, ht, ht1, ht2⟩ := groupInstances_ok_keys hg b hbg
              rw [mem_dedupFirst]
              refine List.mem_map.mpr ⟨t, ht, ?_⟩
              unfold getMapConfig
              rw [ht1, ht2]
            · obtain ⟨s, hs, hbs⟩ := ih hrest hrrest e he b hb
              exact ⟨s, List.mem_cons_of_mem _ hs, hbs⟩

/-- C8 counterexample: on the map with the single forward dependency edge
`web → data`, reverse-mode `dependency_items` yields the entry for `web`
(mapping it to `{(md, data)}`) and an empty set for `data`: no entry maps the
dependency target `data` to a set containing the unit identity of `web`, so
reverse mode does not invert the forward relation as the claim states. -/
theorem dependency_items_reverse_not_inverted_cex :
    dependencyItemsFwd mapDep 9 =
      .ok [(("md", "web"), [("md", "data", [none])]), (("md", "data"), [])] ∧
    dependencyItemsRev mapDep 9 =
      .ok [(("md", "web", [none]), [("md", "data")]),
           (("md", "data", [none]), ([] : List (String × String)))] ∧
    (∀ p ∈ [(("md", "web", ([none] : List (Option String))), [("md", "data")]),
            (("md", "data", [none]), ([] : List (String × String)))],
      p.1 = ("md", "data", [none]) → ("md", "web") ∉ p.2) :=
  ⟨by decide, by decide, by decide⟩

/-- C8 (amended): reverse-mode `dependency_items` does not invert the forward
relation; it emits, for every unit `A`, an entry whose address carries the
wildcard instance tuple and whose set holds the unit-level `(map, unit)`
projections of `A`'s **own** forward dependencies (instance information
discarded): for every forward edge `A → B`, reverse mode maps `A` — not `B` —
to a set containing the unit identity of `B`.  (The inversion into a
dependents relation happens downstream, in the reverse resolver's
`update_backward`, outside this function.) -/
theorem dependency_items_reverse_unit_level (m : ContainerMap) (fuel : Nat)
    (fwd : List ((String × String) × List MapCfgId))
    (rev : List (MapCfgId × List (String × String)))
    (hf : dependencyItemsFwd m fuel = .ok fwd)
    (hr : dependencyItemsRev m fuel = .ok rev) :
    (∀ e ∈ rev, e.1.2.2 = ([none] : List (Option String))) ∧
    (∀ e ∈ fwd, ∀ b ∈ e.2,
      ∃ s, ((e.1.1, e.1.2, ([none] : List (Option String))), s) ∈ rev ∧
        (b.1, b.2.1) ∈ s) := by
  unfold dependencyItemsFwd at hf
  unfold dependencyItemsRev at hr
  cases hem : (if m.extended then .ok m else getExtendedMap m fuel :
      Except PyErr ContainerMap) with
  | error e => rw [hem] at hf; cases hf
  | ok extMap =>
    rw [hem] at hf hr
    exact ⟨dependencyItemsRevList_wildcard hr, fwdRev_edges hf hr⟩

/-- C8 witness: on the concrete one-edge map, the forward edge `web → data`
has its reverse-mode counterpart on `web`'s entry (wildcard address, unit
pair `(md, data)` in the set). -/
theorem dependency_items_reverse_unit_level_witness :
    ∃ s, (("md", "web", ([none] : List (Option String))), s) ∈
        [(("md", "web", ([none] : List (Option String))), [("md", "data")]),
         (("md", "data", [none]), ([] : List (String × String)))] ∧
      ("md", "data") ∈ s := by
  have h := dependency_items_reverse_unit_level mapDep 9
    [(("md", "web"), [("md", "data", [none])]), (("md", "data"), [])]
    [(("md", "web", [none]), [("md", "data")]),
     (("md", "data", [none]), ([] : List (String × String)))]
    (by decide) (by decide)
  exact h.2 (("md", "web"), [("md", "data", [none])]) (by decide)
    ("md", "data", [none]) (by decide)

/-- C9 counterexample: the integrity rules stop at the first failing rule.
On a map where `web` uses the unresolvable volume `zzz` *and* two units
attach the same alias `x`, `check_integrity` raises the duplicate-attachment
error naming only `x` — not a missing-shares error naming `zzz` — even though
`zzz` resolves to neither a volume-sharing unit nor an attachment owner.  So
the claim as stated (every such map raises an error naming the offending
`uses` volume) is false. -/
theorem check_integrity_earlier_rule_masks_missing_shares_cex :
    integrityUsedSet mapVolDupExt \ integritySharedSet mapVolDup mapVolDupExt =
      ({"zzz"} : Finset String) ∧
    checkIntegrity mapVolDup true 10 =
      .error (.mapIntegrityError .duplicateAttached ({"x"} : Finset String)) ∧
    ("zzz" : String) ∉ ({"x"} : Finset String) :=
  ⟨by decide, by decide, by decide⟩

/-- C9 (amended): on an extended map where some unit's `uses` target resolves
to neither a volume-sharing unit (`shares`/`binds`/`uses`) nor an attachment
owner, `check_integrity` raises a `MapIntegrityError` naming exactly the
unresolvable volume identifiers — provided no earlier integrity rule
(group-name collision, missing group reference, duplicate attachment) fails
first, since the check stops at the first failing rule. -/
theorem check_integrity_missing_shares (m : ContainerMap) (cd : Bool)
    (fuel : Nat) (ext : ContainerMap)
    (hext : getExtendedMap m fuel = .ok ext)
    (hne : ext.items ≠ [])
    (h1 : integrityGroupSet m ∩ integrityRefSet ext = ∅)
    (h2 : integrityGroupReferenced m \ integrityRefSet ext = ∅)
    (h3 : ¬(cd = true ∧ integrityDuplicated m ext ≠ ∅))
    (hm : integrityUsedSet ext \ integritySharedSet m ext ≠ ∅) :
    checkIntegrity m cd fuel =
      .error (.mapIntegrityError .missingShares
        (integrityUsedSet ext \ integritySharedSet m ext)) := by
  unfold checkIntegrity
  rw [hext]
  dsimp only
  unfold checkIntegrityItems
  rw [if_neg (by simpa [List.isEmpty_iff] using hne)]
  rw [if_neg (fun hc => hc h1)]
  rw [if_neg (fun hc => hc h2)]
  rw [if_neg h3]
  rw [if_pos hm]

/-- C9 witness: the scenario map (`web` uses `data-vol`, `data` attaches it,
alias has a path) passes the whole integrity check; removing the `attaches`
declaration makes `check_integrity` raise the missing-shares
`MapIntegrityError` naming exactly `data-vol`. -/
theorem check_integrity_missing_shares_witness :
    checkIntegrity mapVol true 10 = .ok () ∧
    checkIntegrity mapVolBroken true 10 =
      .error (.mapIntegrityError .missingShares
        ({"data-vol"} : Finset String)) := by
  constructor
  · decide
  · have h := check_integrity_missing_shares mapVolBroken true 10
      mapVolBrokenExt (by decide) (by decide) (by decide) (by decide)
      (by decide) (by decide)
    have hset : integrityUsedSet mapVolBrokenExt \
        integritySharedSet mapVolBroken mapVolBrokenExt =
        ({"data-vol"} : Finset String) := by decide
    rw [hset] at h
    exact h

/-- C3 counterexample: a found, non-running container whose start time equals
the never-started sentinel AND whose exit code is in the configured
non-recoverable set is classified `PRESENT` with only the `INITIAL` flag: the
`elif` in `get_state` suppresses `NONRECOVERABLE`, refuting the claim's
independent "`NONRECOVERABLE` if its last exit code is in the configured
non-recoverable set". -/
theorem getState_initial_suppresses_nonrecoverable_cex :
    ((-1 : Int) ∈ ({} : StateOptions).nonrecoverableExitCodes) ∧
    getState {} "m" "web" none
        (some { running := false, startedAt := INITIAL_START_TIME,
                exitCode := -1, restarting := false }) =
      (BaseState.present, { initial := true }) ∧
    (getState {} "m" "web" none
        (some { running := false, startedAt := INITIAL_START_TIME,
                exitCode := -1, restarting := false })).2.nonrecoverable = false :=
  ⟨by decide, by decide, by decide⟩

/-- C3 (amended): classification of an inspected container's raw detail —
`ABSENT` with no flags if the object was `NOT_FOUND`; else `RUNNING` if the
runtime reports it running (no state flags besides a possible `OUTDATED`);
else `PRESENT` with `INITIAL` iff the recorded start time equals the
never-started sentinel, `NONRECOVERABLE` iff the last exit code is in the
configured non-recoverable set *and* the start time differs from the sentinel
(the two flags are mutually exclusive, `INITIAL` taking precedence), and
`RESTARTING` additionally iff the runtime reports a pending restart. -/
theorem getState_classification (options : StateOptions)
    (mapName configName : String) (instanceName : Option String)
    (d : ContainerDetail) :
    getState options mapName configName instanceName (some d) =
      ((if d.running then BaseState.running else BaseState.present),
       { initial := !d.running && (d.startedAt == INITIAL_START_TIME),
         restarting := !d.running && d.restarting,
         nonrecoverable := !d.running && !(d.startedAt == INITIAL_START_TIME) &&
           decide (d.exitCode ∈ options.nonrecoverableExitCodes),
         outdated := decide ((ItemType.container, mapName, configName,
           instanceName) ∈ options.forceUpdate) }) ∧
    getState options mapName configName instanceName none =
      (BaseState.absent, {}) := by
  constructor
  · cases hrun : d.running <;>
      cases hst : (d.startedAt == INITIAL_START_TIME) <;>
        by_cases hex : d.exitCode ∈ options.nonrecoverableExitCodes <;>
          cases hres : d.restarting <;>
            by_cases hf : (ItemType.container, mapName, configName,
              instanceName) ∈ options.forceUpdate <;>
              simp [getState, hrun, hst, hex, hres, hf,
                StateFlags.mk.injEq] <;>
              exact List.ne_nil_of_mem hf
  · rfl

/-- C4 counterexample: a container whose address is in the force-update
selection but whose runtime object is `NOT_FOUND` is classified `ABSENT` with
*no* flags — the early return skips the force-update check, refuting
"`OUTDATED` is set ... regardless of whether the base state is `ABSENT`,
`PRESENT`, or `RUNNING`". -/
theorem getState_absent_skips_force_update_cex :
    ((ItemType.container, "m", "web", (none : Option String)) ∈
      (StateOptions.mk [-127, -1]
        [(ItemType.container, "m", "web", none)]).forceUpdate) ∧
    getState (StateOptions.mk [-127, -1]
        [(ItemType.container, "m", "web", none)]) "m" "web" none none =
      (BaseState.absent, {}) :=
  ⟨by decide, by decide⟩

/-- C4 (amended): for a container that was found (base state `PRESENT` or
`RUNNING`), the `OUTDATED` flag is set exactly when its address is in the
caller-supplied force-update selection; for a `NOT_FOUND` (`ABSENT`) object
the force-update check is skipped by the early return and `OUTDATED` is never
set. -/
theorem getState_outdated_iff (options : StateOptions)
    (mapName configName : String) (instanceName : Option String)
    (d : ContainerDetail) :
    ((getState options mapName configName instanceName (some d)).2.outdated =
      decide ((ItemType.container, mapName, configName, instanceName) ∈
        options.forceUpdate)) ∧
    (getState options mapName configName instanceName none).2.outdated = false := by
  constructor
  · by_cases hf : (ItemType.container, mapName, configName, instanceName) ∈
        options.forceUpdate
    · have hne : options.forceUpdate ≠ [] := List.ne_nil_of_mem hf
      cases hrun : d.running <;>
        cases hst : (d.startedAt == INITIAL_START_TIME) <;>
          by_cases hex : d.exitCode ∈ options.nonrecoverableExitCodes <;>
            cases hres : d.restarting <;>
              simp [getState, hrun, hst, hex, hres, hf, hne]
    · cases hrun : d.running <;>
        cases hst : (d.startedAt == INITIAL_START_TIME) <;>
          by_cases hex : d.exitCode ∈ options.nonrecoverableExitCodes <;>
            cases hres : d.restarting <;>
              simp [getState, hrun, hst, hex, hres, hf]
  · rfl

/-- C1: the state generator does not inspect the clients the claim
designates.  `generate_config_states` passes `(c_map, config)` into
`get_clients(c_config, c_map)`, so the *map-level* client list lands in the
configuration slot and takes precedence over the unit-level override; the
loop `for client_name, client_config in clients` then unpacks the 3-tuples
returned by `get_clients` into two targets and raises `ValueError`.  With
unit override `["uc"]` and map-level list `["mc"]`: the correctly-ordered
call yields `uc`, the call as written yields `mc`, and the generator errors
instead of emitting one state report per designated client. -/
theorem generate_config_states_client_selection_bug :
    mkPolicy [("m1", mapC1)] clientRegistryC1 10 = .ok polC1 ∧
    getClients polC1 cfgWebC1.clients mapC1.clients =
      .ok [("uc", "huc", ⟨"huc"⟩)] ∧
    getClients polC1 mapC1.clients cfgWebC1.clients =
      .ok [("mc", "hmc", ⟨"hmc"⟩)] ∧
    generateConfigStates polC1 .container "m1" "web" none false =
      .error .valueError :=
  ⟨by decide, by decide, by decide, by decide⟩

end DockerMap
